import Mathlib

/-!
Verification development for the rustcached in-memory cache server.

We give a shallow embedding of the cache engine (`src/lru.rs`) and the
command interpreter (`src/store.rs`), and prove or refute the spec's
claims about them.

Modelling conventions:
* byte strings are `List Nat` (each element a byte value);
* `HashMap<K, V>` is an association list `List (Key × LruEntry)` whose
  lookup takes the first matching key (the engine never creates
  duplicate keys: `set` deletes before inserting);
* `BTreeSet<(u32, Arc<K>)>` is a duplicate-free `List (Nat × Key)`;
  `iter().next()` (the minimum element) is computed by folding with the
  lexicographic pair order, which agrees with the BTreeSet order;
* `u32`/`u64`/`usize` arithmetic: additions that can overflow in the
  source are taken modulo `2^32`/`2^64` (release-mode wrapping);
  `usize` weight arithmetic stays in `Nat` (the source's subtractions
  only happen where the accounting makes them non-negative).
-/

namespace Rustcached

abbrev Key := List Nat

/-- Byte-lexicographic strict order on keys: the order `BTreeSet<Arc<Vec<u8>>>`
uses for the key component of its pairs. -/
def keyLt : Key → Key → Bool
  | [], [] => false
  | [], _ :: _ => true
  | _ :: _, [] => false
  | a :: as, b :: bs => a < b || (a == b && keyLt as bs)

/-- Strict lexicographic order on `(timestamp, key)` pairs: the BTreeSet
order on `(u32, Arc<Vec<u8>>)` tuples. -/
def pairLt (a b : Nat × Key) : Bool :=
  a.1 < b.1 || (a.1 == b.1 && keyLt a.2 b.2)

/-- The smaller of two pairs under `pairLt`. -/
def pairMin (a b : Nat × Key) : Nat × Key :=
  if pairLt b a then b else a

/-- `BTreeSet::iter().next()`: the minimum element of the ordered set. -/
def btMin (l : List (Nat × Key)) : Option (Nat × Key) :=
  match l with
  | [] => none
  | x :: xs => some (xs.foldl pairMin x)

/-- `BTreeSet::insert`: no-op when the element is already present. -/
def btInsert (x : Nat × Key) (l : List (Nat × Key)) : List (Nat × Key) :=
  if x ∈ l then l else x :: l

/-- `BTreeSet::remove`. -/
def btRemove (x : Nat × Key) (l : List (Nat × Key)) : List (Nat × Key) :=
  l.filter (fun q => !(q == x))

/-- The value type the interpreter stores in the engine
(`DataContainer` in `src/store.rs`). -/
structure DataContainer where
  data : List Nat
  flags : Nat
  unique : Nat
deriving DecidableEq, Repr

/-- `impl HasWeight for DataContainer`: data bytes plus
`size_of::<CasUnique>() + size_of::<Flags>()` (we take `Vec::capacity`
to equal `Vec::len`, which holds for the exact-sized vectors the
interpreter builds). -/
def DataContainer.weight (c : DataContainer) : Nat :=
  c.data.length + 8 + 4

/-- `LruEntry` from `src/lru.rs`. -/
structure LruEntry where
  data : DataContainer
  used : Nat
  expires : Option Nat
  weight : Nat
deriving DecidableEq, Repr

/-- `HashMap` lookup. -/
def mapGet (m : List (Key × LruEntry)) (k : Key) : Option LruEntry :=
  (m.find? (fun p => p.1 == k)).map (·.2)

/-- `HashMap::remove`. -/
def mapRemove (m : List (Key × LruEntry)) (k : Key) : List (Key × LruEntry) :=
  m.filter (fun p => !(p.1 == k))

/-- `HashMap::insert` (replace any existing binding). -/
def mapInsert (m : List (Key × LruEntry)) (k : Key) (e : LruEntry) : List (Key × LruEntry) :=
  (k, e) :: mapRemove m k

/-- In-place update of the entry stored under `k` (what `get_mut` mutation
does); bindings for other keys are untouched. -/
def mapSet (m : List (Key × LruEntry)) (k : Key) (e : LruEntry) : List (Key × LruEntry) :=
  m.map (fun p => if p.1 == k then (k, e) else p)

/-- `LruCache` from `src/lru.rs`, instantiated at the key/value types the
server uses (`Vec<u8>` keys, `DataContainer` values). -/
structure LruCache where
  map : List (Key × LruEntry)
  lru : List (Nat × Key)
  expires : List (Nat × Key)
  capacity : Nat
  weight : Nat
deriving DecidableEq, Repr

/-- `_expired`: strictly earlier than `now`. -/
def tsExpired (timestamp now : Nat) : Bool :=
  timestamp < now

/-- `expired`: an absent expiration never expires. -/
def expired (timestamp : Option Nat) (now : Nat) : Bool :=
  match timestamp with
  | some ts => tsExpired ts now
  | none => false

/-- `compute_weight`: `3·|key| + weight(value) + size_of::<usize>()
+ size_of::<u32>() + size_of::<Option<u32>>()` on a 64-bit target. -/
def compute_weight (key : Key) (value : DataContainer) : Nat :=
  3 * key.length + value.weight + 8 + 4 + 8

namespace LruCache

/-- `LruCache::new`. -/
def new (capacity : Nat) : LruCache :=
  { map := [], lru := [], expires := [], capacity := capacity, weight := 0 }

/-- `LruCache::clear`. -/
def clear (c : LruCache) : LruCache :=
  { c with map := [], lru := [], expires := [], weight := 0 }

/-- `LruCache::delete`.  Note the source removes the `(expires, key)` pair
from `self.lru` — the recency index — rather than from `self.expires`
(`src/lru.rs` line 227); we reproduce that faithfully. -/
def delete (c : LruCache) (key : Key) : LruCache × Bool :=
  match mapGet c.map key with
  | none => (c, false)
  | some e =>
    let lru1 := btRemove (e.used, key) c.lru
    let lru2 := match e.expires with
      | some ts => btRemove (ts, key) lru1
      | none => lru1
    ({ c with map := mapRemove c.map key
              lru := lru2
              weight := c.weight - e.weight }, true)

/-- `LruCache::_get_full_entry` / `get_full_entry`: returns the (possibly
recency-touched) cache together with the entry found. -/
def getFullEntry (c : LruCache) (key : Key) (now : Nat) :
    LruCache × Option LruEntry :=
  match mapGet c.map key with
  | none => (c, none)
  | some e =>
    if expired e.expires now then (c, none)
    else if e.used == now then (c, some e)
    else
      let e' := { e with used := now }
      ({ c with map := mapSet c.map key e'
                lru := btInsert (now, key) (btRemove (e.used, key) c.lru) },
       some e')

/-- `LruCache::get`. -/
def get (c : LruCache) (key : Key) (now : Nat) :
    LruCache × Option DataContainer :=
  let r := c.getFullEntry key now
  (r.1, r.2.map (·.data))

/-- `LruCache::fast_get`: lookup without updating the LRU. -/
def fastGet (c : LruCache) (key : Key) (now : Nat) : Option DataContainer :=
  match mapGet c.map key with
  | none => none
  | some e => if expired e.expires now then none else some e.data

/-- `LruCache::contains`. -/
def contains (c : LruCache) (key : Key) (now : Nat) : Bool :=
  (c.fastGet key now).isSome

/-- One iteration of the eviction loop (`LruCache::deweight_once`): evict
the minimum of the expiration index if it is already expired, otherwise
the minimum of the recency index.  (The `unreachable!` arm — nonempty map
but empty recency index — is modelled as the identity.) -/
def deweightOnce (c : LruCache) (now : Nat) : LruCache :=
  if c.map.isEmpty then c
  else
    let viaExpires : Option Key :=
      match btMin c.expires with
      | none => none
      | some (ts, k) => if tsExpired ts now then some k else none
    match viaExpires with
    | some k => (c.delete k).1
    | none =>
      match btMin c.lru with
      | some (_, k) => (c.delete k).1
      | none => c

/-- The eviction loop of `LruCache::deweight`, unrolled on explicit fuel:
`deweightFuel n` performs at most `n` iterations of
`while weight > target && !map.is_empty { deweight_once }`.  The source
loop has no fuel; an execution of the source terminates with result `r`
iff for some `n` this function returns `r` with the loop guard false
(see `deweightDone`). -/
def deweightFuel : Nat → LruCache → Nat → Nat → LruCache
  | 0, c, _, _ => c
  | n + 1, c, target, now =>
    if c.weight > target && !c.map.isEmpty then
      deweightFuel n (c.deweightOnce now) target now
    else c

/-- The exit condition of the `deweight` loop. -/
def deweightDone (c : LruCache) (target : Nat) : Bool :=
  c.weight ≤ target || c.map.isEmpty

/-- `LruCache::set`, with the eviction loop run on `fuel` (see
`deweightFuel`). -/
def setF (fuel : Nat) (c : LruCache) (key : Key) (value : DataContainer)
    (expires : Option Nat) (now : Nat) : LruCache × Bool :=
  if Rustcached.expired expires now then (c, false)
  else
    let c1 := (c.delete key).1
    let weight := compute_weight key value
    if weight > c1.capacity then (c1, false)
    else
      let c2 := deweightFuel fuel c1 (c1.capacity - weight) now
      let e : LruEntry := { data := value, used := now, expires := expires, weight := weight }
      let expires2 := match expires with
        | some ts => btInsert (ts, key) c2.expires
        | none => c2.expires
      ({ c2 with map := mapInsert c2.map key e
                 weight := c2.weight + weight
                 lru := btInsert (now, key) c2.lru
                 expires := expires2 }, true)

/-- `LruCache::touch`. -/
def touch (c : LruCache) (key : Key) (expires : Option Nat)
    (now : Nat) : LruCache × Bool :=
  let r := c.getFullEntry key now
  match r.2 with
  | none => (r.1, false)
  | some fullEntry =>
    -- after `_get_full_entry` the entry's `used` is already `now`;
    -- `old_used` read by the source equals `now` here, so `_touch`
    -- only has to reconcile the expiration index
    let oldExpires := fullEntry.expires
    let c1 := r.1
    let c2 := { c1 with map := mapSet c1.map key { fullEntry with expires := expires, used := now } }
    let c3 :=
      if oldExpires == expires then c2
      else
        let ex1 := match oldExpires with
          | some ts => btRemove (ts, key) c2.expires
          | none => c2.expires
        let ex2 := match expires with
          | some ts => btInsert (ts, key) ex1
          | none => ex1
        { c2 with expires := ex2 }
    (c3, true)

end LruCache

/-! ## The command interpreter (`src/store.rs`) -/

inductive SetterType where
  | Set | Add | Replace | Append | Prepend
  | Cas (unique : Nat)
deriving DecidableEq, Repr

inductive GetterType where
  | Get | Gets
deriving DecidableEq, Repr

inductive IncrementerType where
  | Incr | Decr
deriving DecidableEq, Repr

inductive ServerCommand where
  | Setter (setter : SetterType) (key : List Nat) (data : List Nat)
           (ttl : Nat) (flags : Nat)
  | Getter (getter : GetterType) (keys : List (List Nat))
  | Delete (key : List Nat)
  | Touch (key : List Nat) (ttl : Nat)
  | Incrementer (incrementer : IncrementerType) (key : List Nat) (value : Nat)
  | FlushAll
  | Bad (raw : List Nat)
  | Quit
  | Version
  | Verbosity
deriving DecidableEq, Repr

structure SingleGetResponse where
  key : List Nat
  data : List Nat
  flags : Nat
  unique : Nat
deriving DecidableEq, Repr

inductive Response where
  | DataResponse (responses : List SingleGetResponse)
  | GetsResponse (responses : List SingleGetResponse)
  | IncrResponse (value : Nat)
  | DeletedResponse
  | TouchedResponse
  | OkResponse
  | StoredResponse
  | NotStoredResponse
  | ExistsResponse
  | NotFoundResponse
  | ErrorResponse
  | ClientErrorResponse (message : List Nat)
  | ServerError (message : List Nat)
  | VersionResponse
  | TooBig
deriving DecidableEq, Repr

/-- ASCII decimal digit byte. -/
def isDigit (b : Nat) : Bool :=
  decide (48 ≤ b ∧ b ≤ 57)

/-- The digit-accumulation step of `u64::from_str` (`acc * 10 + digit`). -/
def digitStep (acc b : Nat) : Nat :=
  acc * 10 + (b - 48)

/-- The numeric value of a digit string. -/
def digitsToNat (bs : List Nat) : Nat :=
  bs.foldl digitStep 0

/-- The digit loop of `u64::from_str_radix`: consume digit bytes,
failing on a non-digit or on `u64` overflow of the accumulator. -/
def parseU64Go : List Nat → Nat → Option Nat
  | [], acc => some acc
  | b :: rest, acc =>
    if isDigit b then
      let acc' := digitStep acc b
      if acc' < 2 ^ 64 then parseU64Go rest acc' else none
    else none

/-- `str::parse::<u64>()`: an optional leading `+` (byte 43), then one
or more decimal digits, value below `2^64`. -/
def parseU64 (bs : List Nat) : Option Nat :=
  match bs with
  | [] => none
  | b :: rest =>
    if b == 43 then (if rest.isEmpty then none else parseU64Go rest 0)
    else parseU64Go (b :: rest) 0

/-- `forgetful_parse_int`: `str::from_utf8` then `parse::<u64>`.  The
UTF-8 validity check cannot change the outcome: a byte string that is
not valid UTF-8 contains a byte ≥ `0x80`, which `parse::<u64>` rejects
as a non-digit anyway, so we model the composition as `parseU64`. -/
def forgetful_parse_int (current_data : List Nat) : Option Nat :=
  parseU64 current_data

/-- `MAGIC_DATE`: TTLs at or beyond this are absolute epoch seconds. -/
def MAGIC_DATE : Nat := 60 * 60 * 24 * 30

def MAX_KEY : Nat := 255

def MAX_DATA : Nat := 1024 * 1024

/-- `wrap_ttl` from `src/store.rs`; `now + ttl` is a `u32` addition, so
it wraps modulo `2^32`. -/
def wrap_ttl (ttl now : Nat) : Option Nat :=
  if ttl == 0 then none
  else if ttl < MAGIC_DATE then some ((now + ttl) % 2 ^ 32)
  else some ttl

/-- Decimal digit bytes of `n`, most significant first (`u64::to_string`).
The first argument is structural fuel; `n + 1` is always enough. -/
def decDigitsAux : Nat → Nat → List Nat
  | 0, _ => []
  | fuel + 1, n =>
    if n < 10 then [48 + n]
    else decDigitsAux fuel (n / 10) ++ [48 + n % 10]

/-- `u64::to_string().as_bytes()`. -/
def natToDecBytes (n : Nat) : List Nat :=
  decDigitsAux (n + 1) n

/-- The interpreter state (`Store` in `src/store.rs`). -/
structure Store where
  store : LruCache
  last_cas_id : Nat
deriving DecidableEq, Repr

namespace Store

/-- `Store::new`. -/
def new (capacity : Nat) : Store :=
  { store := LruCache.new capacity, last_cas_id := 0 }

/-- `Store::make_cas_id` (`u64` increment, wrapping). -/
def make_cas_id (s : Store) : Store × Nat :=
  let n := (s.last_cas_id + 1) % 2 ^ 64
  ({ s with last_cas_id := n }, n)

def badIntMessage : List Nat :=
  ("cannot increment or decrement non-numeric value".toList).map Char.toNat

/-- `Store::apply`.  `now` (read once from `epoch_time()` in the source)
is passed explicitly; `fuel` bounds the eviction loop inside engine
`set` calls (see `LruCache.deweightFuel`).  The `unwrap` in the
append/prepend arms and the `unreachable!` in the `Quit` arm are panics
in the source; they are modelled as `ServerError`/`ErrorResponse`
results but are unreachable under the guards that precede them. -/
def applyF (fuel : Nat) (s : Store) (command : ServerCommand) (now : Nat) :
    Store × Response :=
  match command with
  | .Setter setter ckey cdata cttl flags =>
    if ckey.length > MAX_KEY || cdata.length > MAX_DATA then (s, .TooBig)
    else
      let r := s.make_cas_id
      let s1 := r.1
      let new_cas := r.2
      let ttl := wrap_ttl cttl now
      let container := fun (d : List Nat) (f : Nat) =>
        DataContainer.mk d f new_cas
      match setter with
      | .Set =>
        let r2 := s1.store.setF fuel ckey (container cdata flags) ttl now
        ({ s1 with store := r2.1 }, .StoredResponse)
      | .Add =>
        if s1.store.contains ckey now then (s1, .NotStoredResponse)
        else
          let r2 := s1.store.setF fuel ckey (container cdata flags) ttl now
          ({ s1 with store := r2.1 }, .StoredResponse)
      | .Replace =>
        if s1.store.contains ckey now then
          let r2 := s1.store.setF fuel ckey (container cdata flags) ttl now
          ({ s1 with store := r2.1 }, .StoredResponse)
        else (s1, .NotStoredResponse)
      | .Append =>
        if s1.store.contains ckey now then
          let r2 := s1.store.getFullEntry ckey now
          match r2.2 with
          | some currentEntry =>
            let newVec := currentEntry.data.data ++ cdata
            let r3 := r2.1.setF fuel ckey (container newVec currentEntry.data.flags)
                        currentEntry.expires now
            ({ s1 with store := r3.1 }, .StoredResponse)
          | none => ({ s1 with store := r2.1 }, .ServerError [])
        else (s1, .NotStoredResponse)
      | .Prepend =>
        if s1.store.contains ckey now then
          let r2 := s1.store.getFullEntry ckey now
          match r2.2 with
          | some currentEntry =>
            let newVec := cdata ++ currentEntry.data.data
            let r3 := r2.1.setF fuel ckey (container newVec currentEntry.data.flags)
                        currentEntry.expires now
            ({ s1 with store := r3.1 }, .StoredResponse)
          | none => ({ s1 with store := r2.1 }, .ServerError [])
        else (s1, .NotStoredResponse)
      | .Cas unique =>
        if !(s1.store.contains ckey now) then (s1, .NotFoundResponse)
        else if (s1.store.fastGet ckey now).map (·.unique) == some unique then
          let r2 := s1.store.setF fuel ckey (container cdata flags) ttl now
          ({ s1 with store := r2.1 }, .StoredResponse)
        else (s1, .ExistsResponse)
  | .Getter getter keys =>
    let acc := keys.foldl
      (fun (acc : LruCache × List SingleGetResponse) ckey =>
        let r := acc.1.get ckey now
        match r.2 with
        | some item =>
          (r.1, acc.2 ++ [{ key := ckey, data := item.data,
                            flags := item.flags, unique := item.unique }])
        | none => (r.1, acc.2))
      (s.store, [])
    let s' := { s with store := acc.1 }
    match getter with
    | .Get => (s', .DataResponse acc.2)
    | .Gets => (s', .GetsResponse acc.2)
  | .Delete ckey =>
    let r := s.store.delete ckey
    ({ s with store := r.1 },
     if r.2 then .DeletedResponse else .NotFoundResponse)
  | .Touch ckey cttl =>
    let ttl := wrap_ttl cttl now
    if s.store.contains ckey now then
      let r := s.store.touch ckey ttl now
      ({ s with store := r.1 }, .TouchedResponse)
    else (s, .NotFoundResponse)
  | .Incrementer incrementer ckey value =>
    let r := s.make_cas_id
    let s1 := r.1
    let new_cas := r.2
    let r2 := s1.store.getFullEntry ckey now
    let s2 := { s1 with store := r2.1 }
    match r2.2 with
    | none => (s2, .NotFoundResponse)
    | some fullEntry =>
      match forgetful_parse_int fullEntry.data.data with
      | none => (s2, .ClientErrorResponse badIntMessage)
      | some currentInt =>
        let newInt := match incrementer with
          | .Decr => currentInt - value
          | .Incr => (currentInt + value) % 2 ^ 64
        let newContainer : DataContainer :=
          { data := natToDecBytes newInt, flags := fullEntry.data.flags,
            unique := new_cas }
        let r3 := r2.1.setF fuel ckey newContainer fullEntry.expires now
        ({ s2 with store := r3.1 }, .IncrResponse newInt)
  | .FlushAll => ({ s with store := s.store.clear }, .OkResponse)
  | .Bad _ => (s, .ErrorResponse)
  | .Version => (s, .VersionResponse)
  | .Verbosity => (s, .OkResponse)
  | .Quit => (s, .ErrorResponse)

end Store

/-! ## Spec-side predicates and concrete scenario states -/

/-- The spec's "non-empty string of ASCII decimal digits forming an
unsigned 64-bit integer". -/
def goodDigits (bs : List Nat) : Bool :=
  !bs.isEmpty && bs.all isDigit && decide (digitsToNat bs < 2 ^ 64)

/-- What `forgetful_parse_int` actually accepts: `goodDigits`, or a
leading `+` (byte 43) followed by `goodDigits`. -/
def amendedNumeric (bs : List Nat) : Bool :=
  goodDigits bs ||
  (match bs with
   | b :: rest => b == 43 && goodDigits rest
   | [] => false)

/-- The arithmetic `incr`/`decr` applies: wrapping add modulo `2^64`,
saturating subtraction at 0. -/
def incApply : IncrementerType → Nat → Nat → Nat
  | .Incr, c, v => (c + v) % 2 ^ 64
  | .Decr, c, v => c - v

/-- A concrete cache exercising the eviction policy: two expiration
pairs share the minimal timestamp 5, so the tie-break picks the
lexicographically smaller key `[1]`. -/
def policyCache : LruCache :=
  { map := [([5], { data := ⟨[], 0, 0⟩, used := 3, expires := some 7, weight := 35 })]
    lru := [(3, [9]), (3, [4])]
    expires := [(7, [2]), (5, [3]), (5, [1])]
    capacity := 100
    weight := 35 }

/-! ## Concrete scenario states used to exercise the delete bug -/

/-- Empty 1000-capacity cache after `set [1] (expires = 100) at now = 10`. -/
def bugCacheA : LruCache :=
  (LruCache.setF 0 (LruCache.new 1000) [1] ⟨[], 0, 7⟩ (some 100) 10).1

/-- `bugCacheA` after `delete [1]`. -/
def bugCacheB : LruCache :=
  (bugCacheA.delete [1]).1

/-- `bugCacheB` after re-inserting `[1]` with no expiration. -/
def bugCacheC : LruCache :=
  (LruCache.setF 0 bugCacheB [1] ⟨[], 0, 8⟩ none 10).1

/-- Empty 100-capacity cache after `set [1] (expires = 50)` and
`set [2] (no expiration)` at `now = 10`, then `delete [1]`.  The delete
leaves the stale pair `(50, [1])` in the expiration index; the surviving
entry `[2]` weighs 35. -/
def loopCacheA : LruCache :=
  (LruCache.setF 0 (LruCache.new 100) [1] ⟨[], 0, 1⟩ (some 50) 10).1

def loopCacheB : LruCache :=
  (LruCache.setF 0 loopCacheA [2] ⟨[], 0, 2⟩ none 10).1

def loopCache : LruCache :=
  (loopCacheB.delete [1]).1

/-- A store holding one live entry `"a"` with CAS token 5 under key
`[107]`, used to exercise the cas paths. -/
def casStore : Store :=
  { store := { map := [([107], ⟨⟨[97], 0, 5⟩, 10, none, 36⟩)]
               lru := [(10, [107])], expires := []
               capacity := 1000, weight := 36 }
    last_cas_id := 5 }

/-! ## Order lemmas for the index sets -/

theorem keyLt_irrefl (a : Key) : keyLt a a = false := by
  induction a with
  | nil => rfl
  | cons x xs ih => simp [keyLt, ih]

theorem keyLt_trans : ∀ {a b c : Key},
    keyLt a b = true → keyLt b c = true → keyLt a c = true := by
  intro a
  induction a with
  | nil =>
    intro b c hab hbc
    cases b with
    | nil => simp [keyLt] at hab
    | cons y ys =>
      cases c with
      | nil => simp [keyLt] at hbc
      | cons z zs => simp [keyLt]
  | cons x xs ih =>
    intro b c hab hbc
    cases b with
    | nil => simp [keyLt] at hab
    | cons y ys =>
      cases c with
      | nil => simp [keyLt] at hbc
      | cons z zs =>
        simp only [keyLt, Bool.or_eq_true, Bool.and_eq_true, decide_eq_true_eq,
          beq_iff_eq] at hab hbc ⊢
        rcases hab with h1 | ⟨he1, h1⟩ <;> rcases hbc with h2 | ⟨he2, h2⟩
        · exact Or.inl (Nat.lt_trans h1 h2)
        · exact Or.inl (he2 ▸ h1)
        · exact Or.inl (he1 ▸ h2)
        · exact Or.inr ⟨he1.trans he2, ih h1 h2⟩

theorem keyLt_total : ∀ (a b : Key),
    keyLt a b = true ∨ a = b ∨ keyLt b a = true := by
  intro a
  induction a with
  | nil =>
    intro b
    cases b with
    | nil => exact Or.inr (Or.inl rfl)
    | cons y ys => exact Or.inl (by simp [keyLt])
  | cons x xs ih =>
    intro b
    cases b with
    | nil => exact Or.inr (Or.inr (by simp [keyLt]))
    | cons y ys =>
      rcases Nat.lt_trichotomy x y with h | h | h
      · exact Or.inl (by simp [keyLt, h])
      · rcases ih ys with h2 | h2 | h2
        · exact Or.inl (by simp [keyLt, h, h2])
        · exact Or.inr (Or.inl (by rw [h, h2]))
        · exact Or.inr (Or.inr (by simp [keyLt, h, h2]))
      · exact Or.inr (Or.inr (by simp [keyLt, h]))

theorem pairLt_irrefl (a : Nat × Key) : pairLt a a = false := by
  simp [pairLt, keyLt_irrefl]

theorem pairLt_trans {a b c : Nat × Key}
    (hab : pairLt a b = true) (hbc : pairLt b c = true) : pairLt a c = true := by
  simp only [pairLt, Bool.or_eq_true, Bool.and_eq_true, decide_eq_true_eq,
    beq_iff_eq] at hab hbc ⊢
  rcases hab with h1 | ⟨he1, h1⟩ <;> rcases hbc with h2 | ⟨he2, h2⟩
  · exact Or.inl (Nat.lt_trans h1 h2)
  · exact Or.inl (he2 ▸ h1)
  · exact Or.inl (he1 ▸ h2)
  · exact Or.inr ⟨he1.trans he2, keyLt_trans h1 h2⟩

theorem pairLt_total (a b : Nat × Key) :
    pairLt a b = true ∨ a = b ∨ pairLt b a = true := by
  rcases Nat.lt_trichotomy a.1 b.1 with h | h | h
  · exact Or.inl (by simp [pairLt, h])
  · rcases keyLt_total a.2 b.2 with h2 | h2 | h2
    · exact Or.inl (by simp [pairLt, h, h2])
    · exact Or.inr (Or.inl (Prod.ext h h2))
    · exact Or.inr (Or.inr (by simp [pairLt, h, h2]))
  · exact Or.inr (Or.inr (by simp [pairLt, h]))

theorem pairMin_cases (a b : Nat × Key) :
    pairMin a b = a ∨ pairMin a b = b := by
  unfold pairMin
  split <;> simp

theorem foldl_pairMin_mem (xs : List (Nat × Key)) (a : Nat × Key) :
    xs.foldl pairMin a = a ∨ xs.foldl pairMin a ∈ xs := by
  induction xs generalizing a with
  | nil => exact Or.inl rfl
  | cons x rest ih =>
    simp only [List.foldl_cons]
    rcases ih (pairMin a x) with h | h
    · rcases pairMin_cases a x with h2 | h2
      · exact Or.inl (h.trans h2)
      · exact Or.inr (by rw [h, h2]; exact List.mem_cons_self x rest)
    · exact Or.inr (List.mem_cons_of_mem x h)

theorem pairLt_pairMin_left {a x m : Nat × Key}
    (hmin : pairLt (pairMin a x) m = false) : pairLt a m = false := by
  by_cases h : pairLt x a = true
  · rw [pairMin, if_pos h] at hmin
    by_contra hc
    simp only [Bool.not_eq_false] at hc
    rw [pairLt_trans h hc] at hmin
    simp at hmin
  · rwa [pairMin, if_neg h] at hmin

theorem pairLt_pairMin_right {a x m : Nat × Key}
    (hmin : pairLt (pairMin a x) m = false) : pairLt x m = false := by
  by_cases h : pairLt x a = true
  · rwa [pairMin, if_pos h] at hmin
  · rw [pairMin, if_neg h] at hmin
    by_contra hc
    simp only [Bool.not_eq_false] at hc
    rcases pairLt_total a x with h2 | h2 | h2
    · rw [pairLt_trans h2 hc] at hmin
      simp at hmin
    · rw [h2, hc] at hmin
      simp at hmin
    · exact h h2

theorem foldl_pairMin_not_lt (xs : List (Nat × Key)) (a : Nat × Key) :
    ∀ q, (q = a ∨ q ∈ xs) → pairLt q (xs.foldl pairMin a) = false := by
  induction xs generalizing a with
  | nil =>
    intro q hq
    rcases hq with rfl | h
    · exact pairLt_irrefl q
    · simp at h
  | cons x rest ih =>
    intro q hq
    simp only [List.foldl_cons]
    have key : ∀ r, (r = pairMin a x ∨ r ∈ rest) →
        pairLt r (rest.foldl pairMin (pairMin a x)) = false := ih (pairMin a x)
    have hmin : pairLt (pairMin a x) (rest.foldl pairMin (pairMin a x)) = false :=
      key (pairMin a x) (Or.inl rfl)
    rcases hq with rfl | hq
    · exact pairLt_pairMin_left hmin
    · rcases List.mem_cons.mp hq with rfl | hq
      · exact pairLt_pairMin_right hmin
      · exact key q (Or.inr hq)

theorem btMin_mem {l : List (Nat × Key)} {m : Nat × Key}
    (h : btMin l = some m) : m ∈ l := by
  cases l with
  | nil => simp [btMin] at h
  | cons x xs =>
    simp only [btMin, Option.some.injEq] at h
    rcases foldl_pairMin_mem xs x with h2 | h2
    · rw [← h, h2]; exact List.mem_cons_self x xs
    · rw [← h]; exact List.mem_cons_of_mem x h2

theorem btMin_not_lt {l : List (Nat × Key)} {m : Nat × Key}
    (h : btMin l = some m) : ∀ q ∈ l, pairLt q m = false := by
  cases l with
  | nil => simp [btMin] at h
  | cons x xs =>
    simp only [btMin, Option.some.injEq] at h
    intro q hq
    rw [← h]
    exact foldl_pairMin_not_lt xs x q (List.mem_cons.mp hq)

/-! ## Map and engine helper lemmas -/

theorem mapGet_insert_self (m : List (Key × LruEntry)) (k : Key) (e : LruEntry) :
    mapGet (mapInsert m k e) k = some e := by
  simp [mapGet, mapInsert, List.find?]

theorem mapGet_cons (p : Key × LruEntry) (rest : List (Key × LruEntry)) (k2 : Key) :
    mapGet (p :: rest) k2 = if p.1 = k2 then some p.2 else mapGet rest k2 := by
  by_cases h : p.1 = k2
  · simp [mapGet, List.find?_cons_of_pos, h]
  · have hf : List.find? (fun q => q.1 == k2) (p :: rest) =
        List.find? (fun q => q.1 == k2) rest :=
      List.find?_cons_of_neg _ (by simp [h])
    simp [mapGet, hf, h]

theorem mapSet_cons (p : Key × LruEntry) (rest : List (Key × LruEntry))
    (k : Key) (e' : LruEntry) :
    mapSet (p :: rest) k e' =
      (if p.1 = k then (k, e') else p) :: mapSet rest k e' := by
  by_cases h : p.1 = k <;> simp [mapSet, h]

theorem mapGet_mapSet (m : List (Key × LruEntry)) (k : Key) (e' : LruEntry)
    (k2 : Key) :
    mapGet (mapSet m k e') k2 =
      if k2 = k then (mapGet m k).map (fun _ => e') else mapGet m k2 := by
  induction m with
  | nil => by_cases hk : k2 = k <;> simp [mapGet, mapSet, hk]
  | cons p rest ih =>
    rw [mapSet_cons]
    by_cases hp : p.1 = k
    · by_cases hk : k2 = k
      · subst hk
        simp [mapGet_cons, hp, ih]
      · rw [if_pos hp]
        have hkk : ¬ (k = k2) := fun h => hk h.symm
        simp [mapGet_cons, ih, hp, hk, hkk]
    · rw [if_neg hp]
      by_cases hk : k2 = k
      · subst hk
        simp [mapGet_cons, hp, ih]
      · by_cases hp2 : p.1 = k2 <;> simp [mapGet_cons, ih, hp2, hk]

theorem delete_capacity (c : LruCache) (k : Key) :
    ((c.delete k).1).capacity = c.capacity := by
  rcases h : mapGet c.map k with _ | e <;> simp [LruCache.delete, h]

theorem delete_weight_of_found (c : LruCache) (k : Key) (e : LruEntry)
    (h : mapGet c.map k = some e) :
    ((c.delete k).1).weight = c.weight - e.weight := by
  simp [LruCache.delete, h]

theorem deweightFuel_noop (fuel : Nat) (c : LruCache) (target : Nat)
    (now : Nat) (h : c.weight ≤ target) :
    LruCache.deweightFuel fuel c target now = c := by
  cases fuel with
  | zero => rfl
  | succ n =>
    simp only [LruCache.deweightFuel]
    rw [if_neg]
    simp only [Bool.and_eq_true, decide_eq_true_eq]
    rintro ⟨hgt, -⟩
    omega

theorem btMin_minimality {l : List (Nat × Key)} {t : Nat} {k : Key}
    (h : btMin l = some (t, k)) :
    ∀ q ∈ l, t ≤ q.1 ∧ (q.1 = t → q.2 = k ∨ keyLt k q.2 = true) := by
  intro q hq
  have hnlt := btMin_not_lt h q hq
  constructor
  · by_contra hlt
    push_neg at hlt
    have : pairLt q (t, k) = true := by
      simp only [pairLt, Bool.or_eq_true, decide_eq_true_eq]
      exact Or.inl hlt
    rw [this] at hnlt
    simp at hnlt
  · intro heq
    rcases keyLt_total q.2 k with h3 | h3 | h3
    · have : pairLt q (t, k) = true := by
        simp only [pairLt, Bool.or_eq_true, Bool.and_eq_true, decide_eq_true_eq,
          beq_iff_eq]
        exact Or.inr ⟨heq, h3⟩
      rw [this] at hnlt
      simp at hnlt
    · exact Or.inl h3
    · exact Or.inr h3

/-- C2: each iteration of the eviction loop first inspects the minimum
`(ts, key)` pair of the expiration index; if `ts < now` it deletes
exactly that key, and the pair really is minimal — no other pair has a
smaller timestamp, and among pairs with the same timestamp its key is
byte-lexicographically least.  Only when the expiration index holds no
already-expired pair does the iteration delete the key of the minimum
pair of the recency index, with the same tie-break. -/
theorem deweight_once_eviction_policy (c : LruCache) (now : Nat)
    (hmap : c.map.isEmpty = false) :
    (∀ t k, btMin c.expires = some (t, k) → tsExpired t now = true →
       c.deweightOnce now = (c.delete k).1 ∧ (t, k) ∈ c.expires ∧
       ∀ q ∈ c.expires, t ≤ q.1 ∧ (q.1 = t → q.2 = k ∨ keyLt k q.2 = true)) ∧
    ((∀ q ∈ c.expires, ¬ (q.1 < now)) → ∀ t k, btMin c.lru = some (t, k) →
       c.deweightOnce now = (c.delete k).1 ∧ (t, k) ∈ c.lru ∧
       ∀ q ∈ c.lru, t ≤ q.1 ∧ (q.1 = t → q.2 = k ∨ keyLt k q.2 = true)) := by
  constructor
  · intro t k hmin ht
    refine ⟨?_, btMin_mem hmin, btMin_minimality hmin⟩
    unfold LruCache.deweightOnce
    rw [if_neg (by simp [hmap])]
    simp [hmin, ht]
  · intro hnoexp t k hmin
    refine ⟨?_, btMin_mem hmin, btMin_minimality hmin⟩
    have hexpnone :
        (match btMin c.expires with
         | none => (none : Option Key)
         | some (ts, k0) => if tsExpired ts now then some k0 else none) = none := by
      rcases hE : btMin c.expires with _ | ⟨t0, k0⟩
      · rfl
      · have hmem := btMin_mem hE
        have hn := hnoexp (t0, k0) hmem
        simp only [tsExpired]
        rw [if_neg (by simp [hn])]
    unfold LruCache.deweightOnce
    rw [if_neg (by simp [hmap])]
    simp only [hexpnone, hmin]

/-- Witness for `deweight_once_eviction_policy`: in `policyCache` at
`now = 6` the expired-first branch fires and evicts key `[1]`, the
lexicographically-least key among the minimal timestamp 5. -/
theorem deweight_once_eviction_policy_witness :
    policyCache.deweightOnce 6 = (policyCache.delete [1]).1 ∧
    (5, ([1] : Key)) ∈ policyCache.expires ∧
    ∀ q ∈ policyCache.expires, 5 ≤ q.1 ∧
      (q.1 = 5 → q.2 = [1] ∨ keyLt [1] q.2 = true) :=
  (deweight_once_eviction_policy policyCache 6 (by decide)).1 5 [1]
    (by decide) (by decide)

/-! ## Claim theorems -/

/-- C1 (code bug evidence): `delete` fails to remove the `(expires, key)`
pair from the expiration index (it removes it from the recency index
instead, `src/lru.rs` line 227).  After `set [1] (expires = 100)` then
`delete [1]`, the key is gone from the primary mapping but `(100, [1])`
is still in the expiration index; after re-inserting `[1]` with no
expiration, the key is present in the primary mapping with `expires =
none` while a matching `(100, [1])` pair still sits in the expiration
index — falsifying both the delete clause and the index-consistency
invariant of the claim. -/
theorem delete_leaves_stale_expiration_pair :
    mapGet bugCacheB.map [1] = none ∧
    (100, ([1] : Key)) ∈ bugCacheB.expires ∧
    mapGet bugCacheC.map [1] =
      some { data := ⟨[], 0, 8⟩, used := 10, expires := none, weight := 35 } ∧
    (100, ([1] : Key)) ∈ bugCacheC.expires := by
  decide

/-- C3 (code bug evidence): the eviction loop can make no progress and
therefore never terminates.  In `loopCache` (a state reached by public
operations) the expiration index holds the stale pair `(50, [1])` whose
key is absent from the primary mapping; at `now = 60` every
`deweight_once` iteration deletes the absent key `[1]` and changes
nothing, yet the stored weight (35) stays above the target (25, the
target computed by `set` of a weight-75 item into the 100-capacity
cache) and the mapping stays nonempty — so no iteration strictly
decreases the weight or finds the mapping empty, and
`while weight > target && !map.is_empty` spins forever. -/
theorem eviction_loop_makes_no_progress :
    ∀ fuel : Nat,
      LruCache.deweightFuel fuel loopCache 25 60 = loopCache ∧
      LruCache.deweightDone loopCache 25 = false ∧
      loopCache.deweightOnce 60 = loopCache ∧
      loopCache.weight = 35 ∧
      loopCache.map.isEmpty = false := by
  have hfix : loopCache.deweightOnce 60 = loopCache := by decide
  intro fuel
  refine ⟨?_, by decide, hfix, by decide, by decide⟩
  induction fuel with
  | zero => rfl
  | succ n ih => simp [LruCache.deweightFuel, hfix, ih]

/-- C6: `set` then `get` round-trips.  For any cache state, any key and
value within the protocol size limits whose computed weight fits the
capacity, and any expiration not already expired at `now`: if the
eviction loop terminates (`hterm`; see C3 — the loop can diverge on
states carrying stale expiration pairs), `set` accepts and an immediate
`get` at the same `now` returns exactly the stored value. -/
theorem set_get_roundtrip (fuel : Nat) (c : LruCache) (k : Key)
    (v : DataContainer) (exp : Option Nat) (now : Nat)
    (hk : k.length ≤ 255) (hv : v.data.length ≤ 1024 * 1024)
    (hfit : compute_weight k v ≤ c.capacity)
    (hexp : expired exp now = false)
    (hterm : LruCache.deweightDone
        (LruCache.deweightFuel fuel ((c.delete k).1)
          (c.capacity - compute_weight k v) now)
        (c.capacity - compute_weight k v) = true) :
    (LruCache.setF fuel c k v exp now).2 = true ∧
    ((LruCache.setF fuel c k v exp now).1.get k now).2 = some v := by
  have hcap := delete_capacity c k
  have hng : ¬ compute_weight k v > ((c.delete k).1).capacity := by
    rw [hcap]; omega
  constructor
  · simp [LruCache.setF, hexp, hng]
  · simp [LruCache.setF, hexp, hng, LruCache.get, LruCache.getFullEntry,
      mapGet_insert_self]

/-- Witness for `set_get_roundtrip`: inserting into an empty cache of
capacity 100 and reading the key back. -/
theorem set_get_roundtrip_witness :
    (LruCache.setF 0 (LruCache.new 100) [1] ⟨[2], 0, 5⟩ (some 9) 4).2 = true ∧
    ((LruCache.setF 0 (LruCache.new 100) [1] ⟨[2], 0, 5⟩ (some 9) 4).1.get
        [1] 4).2 = some ⟨[2], 0, 5⟩ :=
  set_get_roundtrip 0 (LruCache.new 100) [1] ⟨[2], 0, 5⟩ (some 9) 4
    (by decide) (by decide) (by decide) (by decide) (by decide)

/-- C4 (amended): the interpreter answers `TooBig` to a setter command
exactly when `|key| > 255` or `|data| > 1_048_576`, and in that case the
interpreter state is completely unchanged.  (An item larger than the
cache's total capacity does *not* produce `TooBig`: the engine's
rejection is silent and the interpreter answers as the setter dictates —
see `oversized_item_answers_stored`.) -/
theorem size_gate_toobig (fuel : Nat) (s : Store) (setter : SetterType)
    (key data : List Nat) (cttl flags now : Nat) :
    (key.length > MAX_KEY ∨ data.length > MAX_DATA →
      Store.applyF fuel s (.Setter setter key data cttl flags) now = (s, .TooBig)) ∧
    (key.length ≤ MAX_KEY → data.length ≤ MAX_DATA →
      (Store.applyF fuel s (.Setter setter key data cttl flags) now).2 ≠ .TooBig) := by
  constructor
  · intro h
    have hgate : (decide (key.length > MAX_KEY) || decide (data.length > MAX_DATA)) = true := by
      rcases h with h | h <;> simp [h]
    simp [Store.applyF, hgate]
  · intro h1 h2
    have hgate : (decide (key.length > MAX_KEY) || decide (data.length > MAX_DATA)) = false := by
      simp only [Bool.or_eq_false_iff, decide_eq_false_iff_not]
      omega
    cases setter <;> simp [Store.applyF, hgate] <;> (repeat' split) <;> simp

set_option maxRecDepth 4000 in
/-- Witness for `size_gate_toobig`: a 256-byte key draws `TooBig` with
no state change; a small `set` never draws `TooBig`. -/
theorem size_gate_toobig_witness :
    Store.applyF 1 (Store.new 100) (.Setter .Set (List.replicate 256 97) [98] 0 0) 50
      = (Store.new 100, .TooBig) ∧
    (Store.applyF 1 (Store.new 100) (.Setter .Set [97] [98] 0 0) 50).2 ≠ .TooBig :=
  ⟨(size_gate_toobig 1 (Store.new 100) .Set (List.replicate 256 97) [98] 0 0 50).1
      (by left; simp [List.length_replicate, MAX_KEY]),
   (size_gate_toobig 1 (Store.new 100) .Set [97] [98] 0 0 50).2
      (by decide) (by decide)⟩

/-- C4 (counterexample): an item larger than the total capacity is not
answered `TooBig`.  In a capacity-10 store, `set` of a 1-byte key and
1-byte value (weight 36 > 10) passes the size gate, the engine refuses
the insert, and the interpreter still answers `Stored` — so `TooBig` is
not returned in one of the claim's "exactly when" cases. -/
theorem oversized_item_answers_stored :
    compute_weight [97] ⟨[98], 0, 1⟩ = 36 ∧
    (Store.applyF 1 (Store.new 10) (.Setter .Set [97] [98] 0 0) 50).2
      = .StoredResponse ∧
    mapGet (Store.applyF 1 (Store.new 10) (.Setter .Set [97] [98] 0 0) 50).1.store.map
      [97] = none := by
  decide

/-- C5: for a `Set` command passing the size gate the interpreter always
answers `Stored`, the engine's boolean return being ignored; in
particular when the TTL is an absolute epoch time earlier than `now`
(`MAGIC_DATE ≤ cttl < now`) the engine refuses the insert, the engine
state is untouched, and a subsequent `get` on a previously-absent key
misses even though the command was answered `Stored`. -/
theorem set_always_stored (fuel : Nat) (s : Store) (key data : List Nat)
    (cttl flags now : Nat)
    (hk : key.length ≤ MAX_KEY) (hd : data.length ≤ MAX_DATA) :
    (Store.applyF fuel s (.Setter .Set key data cttl flags) now).2 = .StoredResponse ∧
    (MAGIC_DATE ≤ cttl → cttl < now →
      (Store.applyF fuel s (.Setter .Set key data cttl flags) now).1.store = s.store ∧
      (mapGet s.store.map key = none →
        ((Store.applyF fuel s (.Setter .Set key data cttl flags) now).1.store.get
            key now).2 = none)) := by
  have hgate : (decide (key.length > MAX_KEY) || decide (data.length > MAX_DATA)) = false := by
    simp only [Bool.or_eq_false_iff, decide_eq_false_iff_not]
    omega
  constructor
  · simp [Store.applyF, hgate]
  · intro hmagic hlt
    have hw : wrap_ttl cttl now = some cttl := by
      rw [wrap_ttl, if_neg (by simp [MAGIC_DATE] at hmagic ⊢; omega),
        if_neg (by simp [MAGIC_DATE] at hmagic ⊢; omega)]
    have hex : expired (some cttl) now = true := by
      simp [expired, tsExpired, hlt]
    constructor
    · simp [Store.applyF, hgate, hw, LruCache.setF, hex, Store.make_cas_id]
    · intro hnone
      simp [Store.applyF, hgate, hw, LruCache.setF, hex, LruCache.get,
        LruCache.getFullEntry, hnone, Store.make_cas_id]

/-- Witness for `set_always_stored`: setting key `[107]` with the
absolute-past TTL `2_592_000` at `now = 2_592_001` answers `Stored`
while storing nothing. -/
theorem set_always_stored_witness :
    (Store.applyF 1 (Store.new 1000) (.Setter .Set [107] [97] 2592000 0)
        2592001).2 = .StoredResponse ∧
    (Store.applyF 1 (Store.new 1000) (.Setter .Set [107] [97] 2592000 0)
        2592001).1.store = (Store.new 1000).store ∧
    ((Store.applyF 1 (Store.new 1000) (.Setter .Set [107] [97] 2592000 0)
        2592001).1.store.get [107] 2592001).2 = none := by
  have h := set_always_stored 1 (Store.new 1000) [107] [97] 2592000 0 2592001
    (by decide) (by decide)
  exact ⟨h.1, (h.2 (by decide) (by decide)).1,
    (h.2 (by decide) (by decide)).2 (by decide)⟩

/-- C10 (amended): `wrap_ttl` returns `none` at `t = 0`, `(now + t) mod
2^32` for `0 < t < MAGIC_DATE` (the `u32` addition wraps), `t` itself for
`t ≥ MAGIC_DATE`; `MAGIC_DATE = 2_592_000` exactly; and it is
non-decreasing in `t` within each non-zero region, in the relative
region provided the `u32` addition `now + t` cannot wrap
(`now + MAGIC_DATE ≤ 2^32`). -/
theorem wrap_ttl_spec (t now : Nat) :
    (t = 0 → wrap_ttl t now = none) ∧
    (0 < t → t < MAGIC_DATE → wrap_ttl t now = some ((now + t) % 2 ^ 32)) ∧
    (MAGIC_DATE ≤ t → wrap_ttl t now = some t) ∧
    MAGIC_DATE = 2592000 ∧
    (∀ t2 a b, 0 < t → t ≤ t2 → t2 < MAGIC_DATE → now + MAGIC_DATE ≤ 2 ^ 32 →
      wrap_ttl t now = some a → wrap_ttl t2 now = some b → a ≤ b) ∧
    (∀ t2 a b, MAGIC_DATE ≤ t → t ≤ t2 →
      wrap_ttl t now = some a → wrap_ttl t2 now = some b → a ≤ b) := by
  have hmagic : MAGIC_DATE = 2592000 := by norm_num [MAGIC_DATE]
  refine ⟨?_, ?_, ?_, hmagic, ?_, ?_⟩
  · intro h
    simp [wrap_ttl, h]
  · intro h1 h2
    rw [wrap_ttl, if_neg (by simp; omega), if_pos (by exact h2)]
  · intro h
    rw [wrap_ttl, if_neg (by simp [hmagic] at h ⊢; omega),
      if_neg (by simp [hmagic] at h ⊢; omega)]
  · intro t2 a b h1 h2 h3 h4 ha hb
    rw [wrap_ttl, if_neg (by simp; omega), if_pos (by omega)] at ha
    rw [wrap_ttl, if_neg (by simp; omega), if_pos (by exact h3)] at hb
    have hlt : now + t2 < 2 ^ 32 := by omega
    rw [Nat.mod_eq_of_lt (by omega)] at ha
    rw [Nat.mod_eq_of_lt hlt] at hb
    simp only [Option.some.injEq] at ha hb
    omega
  · intro t2 a b h1 h2 ha hb
    rw [wrap_ttl, if_neg (by simp [hmagic] at h1 ⊢; omega),
      if_neg (by simp [hmagic] at h1 ⊢; omega)] at ha
    rw [wrap_ttl, if_neg (by simp [hmagic] at h1 ⊢; omega),
      if_neg (by simp [hmagic] at h1 ⊢; omega)] at hb
    simp only [Option.some.injEq] at ha hb
    omega

/-- Witness for `wrap_ttl_spec` at `t = 5`, `now = 7`. -/
theorem wrap_ttl_spec_witness : wrap_ttl 5 7 = some ((7 + 5) % 2 ^ 32) :=
  (wrap_ttl_spec 5 7).2.1 (by decide) (by decide)

/-- C10 (counterexample): with `u32` wrapping, `wrap_ttl` is not
non-decreasing in `t` in the relative region for every `now`
(`now = 2^32 - 2`: `t = 1 ↦ 2^32 - 1` but `t = 2 ↦ 0`), and it does not
return the mathematical sum `now + t` (`now = 2^32 - 1`, `t = 1 ↦ 0`). -/
theorem wrap_ttl_wraps_at_u32_boundary :
    wrap_ttl 1 (2 ^ 32 - 2) = some (2 ^ 32 - 1) ∧
    wrap_ttl 2 (2 ^ 32 - 2) = some 0 ∧
    ¬ (2 ^ 32 - 1 ≤ 0) ∧
    wrap_ttl 1 (2 ^ 32 - 1) = some 0 ∧
    (2 ^ 32 - 1) + 1 ≠ 0 := by
  refine ⟨?_, ?_, by decide, ?_, by decide⟩ <;> decide

/-! ## Parse and lookup helper lemmas -/

theorem foldl_digitStep_ge (bs : List Nat) (acc : Nat) :
    acc ≤ bs.foldl digitStep acc := by
  induction bs generalizing acc with
  | nil => simp
  | cons b rest ih =>
    simp only [List.foldl_cons]
    have h1 : acc ≤ digitStep acc b := by unfold digitStep; omega
    exact h1.trans (ih _)

theorem parseU64Go_eq (bs : List Nat) : ∀ acc, acc < 2 ^ 64 →
    parseU64Go bs acc =
      if bs.all isDigit = true ∧ bs.foldl digitStep acc < 2 ^ 64
      then some (bs.foldl digitStep acc) else none := by
  induction bs with
  | nil =>
    intro acc hacc
    simp only [parseU64Go, List.all_nil, List.foldl_nil]
    rw [if_pos ⟨trivial, hacc⟩]
  | cons b rest ih =>
    intro acc hacc
    have hstep : parseU64Go (b :: rest) acc =
        if isDigit b = true then
          (if digitStep acc b < 2 ^ 64 then parseU64Go rest (digitStep acc b)
           else none)
        else none := rfl
    by_cases hd : isDigit b = true
    · by_cases hov : digitStep acc b < 2 ^ 64
      · rw [hstep, if_pos hd, if_pos hov, ih _ hov]
        simp only [List.all_cons, List.foldl_cons, hd, Bool.true_and]
      · have hge := foldl_digitStep_ge rest (digitStep acc b)
        have hcond : ¬ ((b :: rest).all isDigit = true ∧
            (b :: rest).foldl digitStep acc < 2 ^ 64) := by
          rintro ⟨-, hlt⟩
          simp only [List.foldl_cons] at hlt
          omega
        rw [hstep, if_pos hd, if_neg hov, if_neg hcond]
    · have hcond : ¬ ((b :: rest).all isDigit = true ∧
          (b :: rest).foldl digitStep acc < 2 ^ 64) := by
        rintro ⟨hall, -⟩
        simp only [List.all_cons, Bool.and_eq_true] at hall
        exact hd hall.1
      rw [hstep, if_neg hd, if_neg hcond]

theorem goodDigits_eq_true_iff (bs : List Nat) :
    goodDigits bs = true ↔
      (bs ≠ [] ∧ bs.all isDigit = true ∧ digitsToNat bs < 2 ^ 64) := by
  constructor
  · intro h
    simp only [goodDigits, Bool.and_eq_true, Bool.not_eq_true',
      decide_eq_true_eq] at h
    refine ⟨?_, h.1.2, h.2⟩
    intro hnil
    rw [hnil] at h
    simp at h
  · rintro ⟨h1, h2, h3⟩
    simp only [goodDigits, Bool.and_eq_true, Bool.not_eq_true',
      decide_eq_true_eq]
    refine ⟨⟨?_, h2⟩, h3⟩
    cases bs with
    | nil => exact absurd rfl h1
    | cons x xs => rfl

theorem forgetful_parse_int_characterization (bs : List Nat) :
    (forgetful_parse_int bs).isSome = amendedNumeric bs := by
  cases bs with
  | nil => rfl
  | cons b rest =>
    have hpe : forgetful_parse_int (b :: rest) =
        if (b == 43) = true then
          (if rest.isEmpty = true then none else parseU64Go rest 0)
        else parseU64Go (b :: rest) 0 := rfl
    have hae : amendedNumeric (b :: rest) =
        (goodDigits (b :: rest) || (b == 43 && goodDigits rest)) := rfl
    rw [hpe, hae]
    by_cases hb : b = 43
    · subst hb
      rw [if_pos (by simp)]
      have hplus : goodDigits (43 :: rest) = false := by
        simp [goodDigits, List.all_cons, show isDigit 43 = false by decide]
      rw [hplus, Bool.false_or, show (43 == 43) = true by decide, Bool.true_and]
      cases rest with
      | nil => rfl
      | cons r rs =>
        rw [if_neg (by simp)]
        rw [parseU64Go_eq _ 0 (by norm_num)]
        by_cases hcond : ((r :: rs).all isDigit = true ∧
            (r :: rs).foldl digitStep 0 < 2 ^ 64)
        · rw [if_pos hcond]
          rw [(goodDigits_eq_true_iff (r :: rs)).mpr
            ⟨by simp, hcond.1, hcond.2⟩]
          rfl
        · rw [if_neg hcond]
          cases hgd : goodDigits (r :: rs)
          · rfl
          · have h := (goodDigits_eq_true_iff (r :: rs)).mp hgd
            exact absurd ⟨h.2.1, h.2.2⟩ hcond
    · rw [if_neg (by simp [hb])]
      rw [parseU64Go_eq _ 0 (by norm_num)]
      rw [show (b == 43) = false by simp [hb], Bool.false_and, Bool.or_false]
      by_cases hcond : ((b :: rest).all isDigit = true ∧
          (b :: rest).foldl digitStep 0 < 2 ^ 64)
      · rw [if_pos hcond]
        rw [(goodDigits_eq_true_iff (b :: rest)).mpr ⟨by simp, hcond.1, hcond.2⟩]
        rfl
      · rw [if_neg hcond]
        cases hgd : goodDigits (b :: rest)
        · rfl
        · have h := (goodDigits_eq_true_iff (b :: rest)).mp hgd
          exact absurd ⟨h.2.1, h.2.2⟩ hcond

theorem getFullEntry_found (c : LruCache) (k : Key) (now : Nat) (e : LruEntry)
    (hget : mapGet c.map k = some e) (hlive : expired e.expires now = false) :
    ∃ e' c', c.getFullEntry k now = (c', some e') ∧
      e'.data = e.data ∧ e'.expires = e.expires ∧ e'.used = now ∧
      e'.weight = e.weight ∧
      mapGet c'.map k = some e' ∧
      c'.capacity = c.capacity ∧ c'.weight = c.weight ∧
      c'.expires = c.expires ∧
      (∀ k2, (mapGet c'.map k2).map (fun x => (x.data, x.expires)) =
             (mapGet c.map k2).map (fun x => (x.data, x.expires))) := by
  by_cases hu : (e.used == now) = true
  · refine ⟨e, c, ?_, rfl, rfl, by simpa using hu, rfl, hget, rfl, rfl, rfl,
      fun k2 => rfl⟩
    simp [LruCache.getFullEntry, hget, hlive, hu]
  · refine ⟨{ e with used := now },
      { c with map := mapSet c.map k { e with used := now }
               lru := btInsert (now, k) (btRemove (e.used, k) c.lru) },
      ?_, rfl, rfl, rfl, rfl, ?_, rfl, rfl, rfl, ?_⟩
    · simp [LruCache.getFullEntry, hget, hlive, hu]
    · simp [mapGet_mapSet, hget]
    · intro k2
      simp only [mapGet_mapSet]
      by_cases hk : k2 = k
      · subst hk
        simp [hget]
      · simp [hk]

/-- Unfolding of `Store.applyF` on an `Incrementer` command (the
`incApply` fold of the two arithmetic arms). -/
theorem applyF_incrementer (fuel : Nat) (s : Store) (inc : IncrementerType)
    (ckey : Key) (value now : Nat) :
    Store.applyF fuel s (.Incrementer inc ckey value) now =
      (let new_cas := (s.last_cas_id + 1) % 2 ^ 64
       let s1 : Store := { s with last_cas_id := new_cas }
       let r2 := s.store.getFullEntry ckey now
       let s2 : Store := { s1 with store := r2.1 }
       match r2.2 with
       | none => (s2, .NotFoundResponse)
       | some fullEntry =>
         match forgetful_parse_int fullEntry.data.data with
         | none => (s2, .ClientErrorResponse Store.badIntMessage)
         | some currentInt =>
           let newInt := incApply inc currentInt value
           let newContainer : DataContainer :=
             { data := natToDecBytes newInt, flags := fullEntry.data.flags,
               unique := new_cas }
           let r3 := r2.1.setF fuel ckey newContainer fullEntry.expires now
           ({ s2 with store := r3.1 }, .IncrResponse newInt)) := by
  cases inc <;> rfl

/-- Unfolding of a successful `LruCache.setF` whose eviction loop exits
immediately. -/
theorem setF_found (fuel : Nat) (c : LruCache) (k : Key) (v : DataContainer)
    (exp : Option Nat) (now : Nat)
    (hexp : expired exp now = false)
    (hcap : compute_weight k v ≤ c.capacity)
    (hde : LruCache.deweightFuel fuel ((c.delete k).1)
        (((c.delete k).1).capacity - compute_weight k v) now = (c.delete k).1) :
    c.setF fuel k v exp now =
      ({ (c.delete k).1 with
           map := mapInsert ((c.delete k).1).map k
             { data := v, used := now, expires := exp,
               weight := compute_weight k v }
           weight := ((c.delete k).1).weight + compute_weight k v
           lru := btInsert (now, k) ((c.delete k).1).lru
           expires := match exp with
             | some ts => btInsert (ts, k) ((c.delete k).1).expires
             | none => ((c.delete k).1).expires }, true) := by
  have hng : ¬ compute_weight k v > ((c.delete k).1).capacity := by
    rw [delete_capacity]; omega
  unfold LruCache.setF
  rw [if_neg (by simp [hexp])]
  simp only [if_neg hng, hde]
  cases exp <;> rfl

/-- C8 (amended): for an `incr`/`decr` on a present, non-expired key the
stored value is accepted as a number exactly when it is a non-empty
string of ASCII decimal digits below `2^64`, *optionally preceded by a
single `+` sign* (Rust's `u64::from_str` accepts a leading `+`); any
other value draws `ClientError("cannot increment or decrement
non-numeric value")` and every entry's data and expiration are left
unchanged (only the looked-up entry's recency moves, per the touching
read). -/
theorem incr_decr_validation (fuel : Nat) (s : Store) (ckey : Key)
    (value now : Nat) (inc : IncrementerType) (e : LruEntry)
    (hget : mapGet s.store.map ckey = some e)
    (hlive : expired e.expires now = false) :
    (amendedNumeric e.data.data = false →
      (Store.applyF fuel s (.Incrementer inc ckey value) now).2 =
        .ClientErrorResponse Store.badIntMessage ∧
      ∀ k2, (mapGet (Store.applyF fuel s
                (.Incrementer inc ckey value) now).1.store.map k2).map
              (fun x => (x.data, x.expires)) =
            (mapGet s.store.map k2).map (fun x => (x.data, x.expires))) ∧
    (amendedNumeric e.data.data = true →
      ∃ n, (Store.applyF fuel s (.Incrementer inc ckey value) now).2 =
        .IncrResponse n) := by
  obtain ⟨e', c', hgfe, hdata, hexp, hused, hw, hmapk, hcap, hwt, hexpset,
    hproj⟩ := getFullEntry_found s.store ckey now e hget hlive
  rw [applyF_incrementer]
  simp only [hgfe]
  constructor
  · intro hbad
    have hnone : forgetful_parse_int e'.data.data = none := by
      rw [hdata]
      have hchar := forgetful_parse_int_characterization e.data.data
      rw [hbad] at hchar
      exact Option.not_isSome_iff_eq_none.mp (by simp [hchar])
    simp only [hnone]
    exact ⟨by trivial, hproj⟩
  · intro hgood
    have hsome : (forgetful_parse_int e'.data.data).isSome = true := by
      rw [hdata]
      have hchar := forgetful_parse_int_characterization e.data.data
      rw [hgood] at hchar
      exact hchar
    obtain ⟨n0, hn0⟩ := Option.isSome_iff_exists.mp hsome
    simp only [hn0]
    exact ⟨incApply inc n0 value, rfl⟩

/-- Witness for `incr_decr_validation`: in a store holding `"x"` (byte
120, not numeric) under key `[110]`, `incr` answers the client error and
leaves the value in place. -/
theorem incr_decr_validation_witness :
    ((Store.applyF 1
        { store := { map := [([110], ⟨⟨[120], 0, 1⟩, 10, none, 36⟩)],
                     lru := [(10, [110])], expires := [],
                     capacity := 1000, weight := 36 },
          last_cas_id := 1 }
        (.Incrementer .Incr [110] 1) 10).2 =
      .ClientErrorResponse Store.badIntMessage ∧
     ∀ k2, (mapGet (Store.applyF 1
        { store := { map := [([110], ⟨⟨[120], 0, 1⟩, 10, none, 36⟩)],
                     lru := [(10, [110])], expires := [],
                     capacity := 1000, weight := 36 },
          last_cas_id := 1 }
        (.Incrementer .Incr [110] 1) 10).1.store.map k2).map
          (fun x => (x.data, x.expires)) =
        (mapGet [([110], (⟨⟨[120], 0, 1⟩, 10, none, 36⟩ : LruEntry))] k2).map
          (fun x => (x.data, x.expires))) :=
  (incr_decr_validation 1
    { store := { map := [([110], ⟨⟨[120], 0, 1⟩, 10, none, 36⟩)],
                 lru := [(10, [110])], expires := [],
                 capacity := 1000, weight := 36 },
      last_cas_id := 1 }
    [110] 1 10 .Incr ⟨⟨[120], 0, 1⟩, 10, none, 36⟩
    (by decide) (by decide)).1 (by decide)

/-- C8 (counterexample): the value `"+5"` (bytes `[43, 53]`) contains
the non-digit byte `+` (43), so the claim demands `ClientError`; the
interpreter instead accepts it and answers `IncrResponse 6` to
`incr 1`. -/
theorem plus_prefixed_value_is_incremented :
    isDigit 43 = false ∧
    goodDigits [43, 53] = false ∧
    (Store.applyF 1
        ((Store.applyF 1 (Store.new 1000)
          (.Setter .Set [110] [43, 53] 0 0) 100).1)
        (.Incrementer .Incr [110] 1) 100).2 = .IncrResponse 6 := by
  decide

/-- C9 (amended): for `incr`/`decr` on a present, live key whose value
parses as `cur < 2^64`, the response is `Incr(new)` with `new = (cur +
v) mod 2^64` for `incr` (wrapping) and `new = cur - v` saturating at 0
for `decr`; and *provided the written-back entry still fits the
capacity with no eviction needed* (`hfit`), the new value's decimal
ASCII bytes are stored back under the key with the old `flags` and
`expires` and the freshly minted CAS token `(last_cas_id + 1) mod 2^64`.
(Without the proviso the engine can refuse the write-back, deleting the
entry while still answering `Incr` — see
`incr_overweight_drops_entry`.) -/
theorem incr_decr_arithmetic (fuel : Nat) (s : Store) (ckey : Key)
    (value now : Nat) (inc : IncrementerType) (e : LruEntry) (cur : Nat)
    (hget : mapGet s.store.map ckey = some e)
    (hlive : expired e.expires now = false)
    (hparse : forgetful_parse_int e.data.data = some cur)
    (hfit : s.store.weight - e.weight +
        compute_weight ckey
          ⟨natToDecBytes (incApply inc cur value), e.data.flags,
           (s.last_cas_id + 1) % 2 ^ 64⟩ ≤ s.store.capacity) :
    (Store.applyF fuel s (.Incrementer inc ckey value) now).2 =
        .IncrResponse (incApply inc cur value) ∧
    mapGet (Store.applyF fuel s
        (.Incrementer inc ckey value) now).1.store.map ckey =
      some { data := ⟨natToDecBytes (incApply inc cur value), e.data.flags,
                      (s.last_cas_id + 1) % 2 ^ 64⟩,
             used := now, expires := e.expires,
             weight := compute_weight ckey
               ⟨natToDecBytes (incApply inc cur value), e.data.flags,
                (s.last_cas_id + 1) % 2 ^ 64⟩ } := by
  obtain ⟨e', c', hgfe, hdata, hexp, hused, hw, hmapk, hcap, hwt, hexpset,
    hproj⟩ := getFullEntry_found s.store ckey now e hget hlive
  rw [applyF_incrementer]
  simp only [hgfe]
  have hparse' : forgetful_parse_int e'.data.data = some cur := by
    rw [hdata]; exact hparse
  simp only [hparse']
  have hexp' : expired e'.expires now = false := by rw [hexp]; exact hlive
  have hcapF : compute_weight ckey
      ⟨natToDecBytes (incApply inc cur value), e'.data.flags,
       (s.last_cas_id + 1) % 2 ^ 64⟩ ≤ c'.capacity := by
    rw [hcap, hdata]
    omega
  have hdeF : LruCache.deweightFuel fuel ((c'.delete ckey).1)
      (((c'.delete ckey).1).capacity -
        compute_weight ckey
          ⟨natToDecBytes (incApply inc cur value), e'.data.flags,
           (s.last_cas_id + 1) % 2 ^ 64⟩) now = (c'.delete ckey).1 := by
    apply deweightFuel_noop
    rw [delete_weight_of_found c' ckey e' hmapk, delete_capacity, hwt, hcap,
      hw, hdata]
    omega
  rw [setF_found fuel c' ckey
      ⟨natToDecBytes (incApply inc cur value), e'.data.flags,
       (s.last_cas_id + 1) % 2 ^ 64⟩
      e'.expires now hexp' hcapF hdeF]
  refine ⟨by trivial, ?_⟩
  simp only [mapGet_insert_self]
  rw [hexp, hdata]

/-- Witness for `incr_decr_arithmetic`: `incr 5` on a stored `"20"`
(bytes `[50, 48]`) answers `Incr 25` and stores `"25"` back with a fresh
CAS token. -/
theorem incr_decr_arithmetic_witness :
    ((Store.applyF 1
        { store := { map := [([110], ⟨⟨[50, 48], 0, 1⟩, 10, none, 37⟩)],
                     lru := [(10, [110])], expires := [],
                     capacity := 1000, weight := 37 },
          last_cas_id := 1 }
        (.Incrementer .Incr [110] 5) 10).2 = .IncrResponse 25 ∧
     mapGet (Store.applyF 1
        { store := { map := [([110], ⟨⟨[50, 48], 0, 1⟩, 10, none, 37⟩)],
                     lru := [(10, [110])], expires := [],
                     capacity := 1000, weight := 37 },
          last_cas_id := 1 }
        (.Incrementer .Incr [110] 5) 10).1.store.map [110] =
      some { data := ⟨natToDecBytes 25, 0, 2⟩, used := 10, expires := none,
             weight := compute_weight [110] ⟨natToDecBytes 25, 0, 2⟩ }) :=
  incr_decr_arithmetic 1
    { store := { map := [([110], ⟨⟨[50, 48], 0, 1⟩, 10, none, 37⟩)],
                 lru := [(10, [110])], expires := [],
                 capacity := 1000, weight := 37 },
      last_cas_id := 1 }
    [110] 5 10 .Incr ⟨⟨[50, 48], 0, 1⟩, 10, none, 37⟩ 20
    (by decide) (by decide) (by decide) (by decide)

/-- C9 (counterexample): in a capacity-40 store holding `"99"` under key
`[110]` (weight 37), `incr 999901` computes 1000000, whose write-back
weighs 42 > 40; the engine refuses and the already-deleted entry is
gone, yet the interpreter answers `Incr 1000000` — so "stores" fails
without the fitting proviso. -/
theorem incr_overweight_drops_entry :
    (Store.applyF 1
        ((Store.applyF 1 (Store.new 40) (.Setter .Set [110] [57, 57] 0 0) 100).1)
        (.Incrementer .Incr [110] 999901) 100).2 = .IncrResponse 1000000 ∧
    mapGet (Store.applyF 1
        ((Store.applyF 1 (Store.new 40) (.Setter .Set [110] [57, 57] 0 0) 100).1)
        (.Incrementer .Incr [110] 999901) 100).1.store.map [110] = none := by
  decide

/-- Unfolding of `Store.applyF` on a `cas` setter that passes the size
gate. -/
theorem applyF_cas (fuel : Nat) (s : Store) (ckey data : List Nat)
    (cttl flags now u : Nat)
    (hgate : (decide (ckey.length > MAX_KEY) ||
              decide (data.length > MAX_DATA)) = false) :
    Store.applyF fuel s (.Setter (.Cas u) ckey data cttl flags) now =
      (let new_cas := (s.last_cas_id + 1) % 2 ^ 64
       let s1 : Store := { s with last_cas_id := new_cas }
       if !(s.store.contains ckey now) then (s1, .NotFoundResponse)
       else if (s.store.fastGet ckey now).map (·.unique) == some u then
         let r2 := s.store.setF fuel ckey ⟨data, flags, new_cas⟩
                     (wrap_ttl cttl now) now
         ({ s1 with store := r2.1 }, .StoredResponse)
       else (s1, .ExistsResponse)) := by
  have h0 : Store.applyF fuel s (.Setter (.Cas u) ckey data cttl flags) now =
      if (decide (ckey.length > MAX_KEY) ||
          decide (data.length > MAX_DATA)) = true
      then (s, Response.TooBig)
      else
        (let new_cas := (s.last_cas_id + 1) % 2 ^ 64
         let s1 : Store := { s with last_cas_id := new_cas }
         if !(s.store.contains ckey now) then (s1, .NotFoundResponse)
         else if (s.store.fastGet ckey now).map (·.unique) == some u then
           let r2 := s.store.setF fuel ckey ⟨data, flags, new_cas⟩
                       (wrap_ttl cttl now) now
           ({ s1 with store := r2.1 }, .StoredResponse)
         else (s1, .ExistsResponse)) := rfl
  rw [h0, if_neg (by simp only [hgate]; exact Bool.false_ne_true)]

/-- C7 (amended): for a size-gate-passing `cas(u)` command — if the key
is absent or expired the response is `NotFound` and the engine is left
untouched; if present with stored `unique ≠ u` the response is `Exists`
and the engine is left untouched (no LRU move); if present with stored
`unique = u` the response is `Stored` and, *provided the supplied ttl is
not already expired and the item fits the capacity with no eviction
needed*, the supplied data/flags/ttl are stored under a freshly minted
token `(last_cas_id + 1) mod 2^64`, which differs from every
previously-minted token (in particular from `u`).  Without the proviso
the engine refuses the write while `Stored` is still answered, so two
successive successful `cas` can observe the same `unique` — see
`cas_success_without_store`. -/
theorem cas_semantics (fuel : Nat) (s : Store) (ckey data : List Nat)
    (cttl flags now u : Nat)
    (hk : ckey.length ≤ MAX_KEY) (hd : data.length ≤ MAX_DATA) :
    (s.store.contains ckey now = false →
      (Store.applyF fuel s (.Setter (.Cas u) ckey data cttl flags) now).1.store
          = s.store ∧
      (Store.applyF fuel s (.Setter (.Cas u) ckey data cttl flags) now).2
          = .NotFoundResponse) ∧
    (s.store.contains ckey now = true →
      (s.store.fastGet ckey now).map (·.unique) ≠ some u →
      (Store.applyF fuel s (.Setter (.Cas u) ckey data cttl flags) now).1.store
          = s.store ∧
      (Store.applyF fuel s (.Setter (.Cas u) ckey data cttl flags) now).2
          = .ExistsResponse) ∧
    (s.store.contains ckey now = true →
      (s.store.fastGet ckey now).map (·.unique) = some u →
      (Store.applyF fuel s (.Setter (.Cas u) ckey data cttl flags) now).2
          = .StoredResponse ∧
      (expired (wrap_ttl cttl now) now = false →
       ((s.store.delete ckey).1).weight +
           compute_weight ckey ⟨data, flags, (s.last_cas_id + 1) % 2 ^ 64⟩
         ≤ s.store.capacity →
       mapGet (Store.applyF fuel s
           (.Setter (.Cas u) ckey data cttl flags) now).1.store.map ckey =
         some { data := ⟨data, flags, (s.last_cas_id + 1) % 2 ^ 64⟩,
                used := now, expires := wrap_ttl cttl now,
                weight := compute_weight ckey
                  ⟨data, flags, (s.last_cas_id + 1) % 2 ^ 64⟩ })) ∧
    (u ≤ s.last_cas_id → s.last_cas_id + 1 < 2 ^ 64 →
      (s.last_cas_id + 1) % 2 ^ 64 ≠ u) := by
  have hgate : (decide (ckey.length > MAX_KEY) ||
      decide (data.length > MAX_DATA)) = false := by
    simp only [Bool.or_eq_false_iff, decide_eq_false_iff_not]
    omega
  rw [applyF_cas fuel s ckey data cttl flags now u hgate]
  refine ⟨?_, ?_, ?_, ?_⟩
  · intro hcont
    rw [if_pos (by simp [hcont])]
    exact ⟨rfl, rfl⟩
  · intro hcont hne
    rw [if_neg (by simp [hcont]), if_neg (by simp only [beq_iff_eq]; exact hne)]
    exact ⟨rfl, rfl⟩
  · intro hcont heq
    rw [if_neg (by simp [hcont]), if_pos (by simp only [beq_iff_eq]; exact heq)]
    refine ⟨rfl, ?_⟩
    intro hexp hfit
    have hcapF : compute_weight ckey
        ⟨data, flags, (s.last_cas_id + 1) % 2 ^ 64⟩ ≤ s.store.capacity := by
      omega
    have hdeF : LruCache.deweightFuel fuel ((s.store.delete ckey).1)
        (((s.store.delete ckey).1).capacity -
          compute_weight ckey ⟨data, flags, (s.last_cas_id + 1) % 2 ^ 64⟩)
        now = (s.store.delete ckey).1 := by
      apply deweightFuel_noop
      rw [delete_capacity]
      omega
    rw [setF_found fuel s.store ckey ⟨data, flags, (s.last_cas_id + 1) % 2 ^ 64⟩
      (wrap_ttl cttl now) now hexp hcapF hdeF]
    simp only [mapGet_insert_self]
  · intro h1 h2
    rw [Nat.mod_eq_of_lt h2]
    omega

/-- Witness for `cas_semantics`: in `casStore` (stored token 5),
`cas(5)` answers `Stored`, stores the supplied data with the fresh token
6, and `6 ≠ 5`. -/
theorem cas_semantics_witness :
    (Store.applyF 1 casStore (.Setter (.Cas 5) [107] [98] 0 0) 10).2
        = .StoredResponse ∧
    mapGet (Store.applyF 1 casStore
        (.Setter (.Cas 5) [107] [98] 0 0) 10).1.store.map [107] =
      some { data := ⟨[98], 0, 6⟩, used := 10, expires := none,
             weight := compute_weight [107] ⟨[98], 0, 6⟩ } ∧
    (casStore.last_cas_id + 1) % 2 ^ 64 ≠ 5 := by
  have h := cas_semantics 1 casStore [107] [98] 0 0 10 5 (by decide) (by decide)
  have h3 := h.2.2.1 (by decide) (by decide)
  exact ⟨h3.1, by
    have := h3.2 (by decide) (by decide)
    simpa using this, h.2.2.2 (by decide) (by decide)⟩

/-- C7 (counterexample): a `cas` whose supplied ttl is an absolute epoch
time in the past succeeds (`Stored`) twice in a row while the engine
refuses both writes: the entry keeps CAS token 1 and its old data
`[100]`, so the two successive successful `cas(1)` observed the *same*
`unique`, and the supplied data/flags/ttl were never stored. -/
theorem cas_success_without_store :
    (Store.applyF 1
        ((Store.applyF 1 (Store.new 1000)
          (.Setter .Set [107] [100] 0 0) 2592001).1)
        (.Setter (.Cas 1) [107] [101] 2592000 0) 2592001).2
      = .StoredResponse ∧
    (Store.applyF 1
        (Store.applyF 1
          ((Store.applyF 1 (Store.new 1000)
            (.Setter .Set [107] [100] 0 0) 2592001).1)
          (.Setter (.Cas 1) [107] [101] 2592000 0) 2592001).1
        (.Setter (.Cas 1) [107] [101] 2592000 0) 2592001).2
      = .StoredResponse ∧
    ((Store.applyF 1
        (Store.applyF 1
          ((Store.applyF 1 (Store.new 1000)
            (.Setter .Set [107] [100] 0 0) 2592001).1)
          (.Setter (.Cas 1) [107] [101] 2592000 0) 2592001).1
        (.Setter (.Cas 1) [107] [101] 2592000 0) 2592001).1.store.fastGet
          [107] 2592001).map (·.unique) = some 1 ∧
    ((Store.applyF 1
        (Store.applyF 1
          ((Store.applyF 1 (Store.new 1000)
            (.Setter .Set [107] [100] 0 0) 2592001).1)
          (.Setter (.Cas 1) [107] [101] 2592000 0) 2592001).1
        (.Setter (.Cas 1) [107] [101] 2592000 0) 2592001).1.store.fastGet
          [107] 2592001).map (·.data) = some [100] := by
  decide

end Rustcached
